import Mathlib

/-!
Verification of the distributor ownership-tracking layer: the per-stripe
bucket database, the cluster-state transition pipeline, the recovery-mode
invariant, the ideal-state computation and the text encoding used to seed
bucket databases.  The repository ships only the public interface of the
test utility (`top_level_distributor_test_util.h`); the component
implementations are modelled from the specification, as marked on each
definition.
-/

set_option autoImplicit false

namespace Vespa

/-- Per-replica fact carried in a bucket database entry:
checksum, document count and total byte size. -/
structure BucketInfo where
  checksum : Nat
  docCount : Nat
  totalSize : Nat
deriving DecidableEq, Repr

/-- A replica record: which node holds the replica, its bucket info, and
whether the replica is trusted (authoritative for merge decisions). -/
structure Replica where
  node : Nat
  info : BucketInfo
  trusted : Bool
deriving DecidableEq, Repr

/-- A bucket database entry: the ordered list of replica records of one
bucket. -/
abbrev Entry := List Replica

/-- The node indices appearing in an entry, in order. -/
def nodes_of (e : Entry) : List Nat := e.map Replica.node

/-- Modelled from the spec: `update(bucket, node, info, trusted)` of the
BucketDatabase "inserts-or-replaces a replica record"; the BucketDatabase
implementation is not under src/.  Replaces the record of node `n` when one
exists and appends a fresh record otherwise. -/
def update_entry (e : Entry) (n : Nat) (i : BucketInfo) (t : Bool) : Entry :=
  match e with
  | [] => [⟨n, i, t⟩]
  | r :: rs => if r.node = n then ⟨n, i, t⟩ :: rs else r :: update_entry rs n i t

theorem nodes_of_nil : nodes_of [] = [] := rfl

theorem nodes_of_cons (r : Replica) (rs : Entry) :
    nodes_of (r :: rs) = r.node :: nodes_of rs := rfl

theorem nodes_of_update_entry (e : Entry) (n : Nat) (i : BucketInfo) (t : Bool) :
    nodes_of (update_entry e n i t) =
      if n ∈ nodes_of e then nodes_of e else nodes_of e ++ [n] := by
  induction e with
  | nil => simp [update_entry, nodes_of]
  | cons r rs ih =>
    by_cases h : r.node = n
    · simp [update_entry, h, nodes_of_cons]
    · have hn : n ∈ nodes_of (r :: rs) ↔ n ∈ nodes_of rs := by
        simp [nodes_of_cons]
        intro he
        exact absurd he.symm h
      by_cases hm : n ∈ nodes_of rs
      · simp [update_entry, h, nodes_of_cons, ih, hm, hn.mpr hm]
      · have hnr : ¬ n ∈ nodes_of (r :: rs) := fun hc => hm (hn.mp hc)
        have hne : ¬ n = r.node := fun hc => h hc.symm
        simp [update_entry, h, nodes_of_cons, ih, hm, hnr, hne]

theorem update_entry_append (e : Entry) (n : Nat) (i : BucketInfo) (t : Bool)
    (hm : n ∉ nodes_of e) : update_entry e n i t = e ++ [⟨n, i, t⟩] := by
  induction e with
  | nil => simp [update_entry]
  | cons r rs ih =>
    have hr : r.node ≠ n := by
      intro hc
      exact hm (by simp [nodes_of_cons, hc])
    have hm' : n ∉ nodes_of rs := fun hc => hm (by simp [nodes_of_cons, hc])
    simp [update_entry, hr, ih hm']

/-- C9 — every BucketDatabase update preserves the invariant of at most one
record per node: `update_entry` keeps the node list duplicate-free, inserts a
new record when none exists for that node, and replaces the existing record
(leaving the node list unchanged) otherwise. -/
theorem update_entry_no_duplicates (e : Entry) (n : Nat) (i : BucketInfo) (t : Bool)
    (h : (nodes_of e).Nodup) :
    (nodes_of (update_entry e n i t)).Nodup ∧
    (n ∉ nodes_of e → update_entry e n i t = e ++ [⟨n, i, t⟩]) ∧
    (n ∈ nodes_of e → nodes_of (update_entry e n i t) = nodes_of e) := by
  refine ⟨?_, ?_, ?_⟩
  · rw [nodes_of_update_entry]
    by_cases hm : n ∈ nodes_of e
    · simpa [hm] using h
    · simp [hm, List.nodup_append, h]
  · intro hm
    exact update_entry_append e n i t hm
  · intro hm
    rw [nodes_of_update_entry]
    simp [hm]

/-- Witness for C9 at a concrete two-node entry. -/
theorem update_entry_no_duplicates_witness :
    (nodes_of (update_entry [⟨0, ⟨1, 2, 3⟩, true⟩, ⟨1, ⟨4, 5, 6⟩, false⟩] 1 ⟨7, 8, 9⟩ true)).Nodup ∧
    ((1 : Nat) ∉ nodes_of [⟨0, ⟨1, 2, 3⟩, true⟩, ⟨1, ⟨4, 5, 6⟩, false⟩] →
      update_entry [⟨0, ⟨1, 2, 3⟩, true⟩, ⟨1, ⟨4, 5, 6⟩, false⟩] 1 ⟨7, 8, 9⟩ true =
        [⟨0, ⟨1, 2, 3⟩, true⟩, ⟨1, ⟨4, 5, 6⟩, false⟩] ++ [⟨1, ⟨7, 8, 9⟩, true⟩]) ∧
    ((1 : Nat) ∈ nodes_of [⟨0, ⟨1, 2, 3⟩, true⟩, ⟨1, ⟨4, 5, 6⟩, false⟩] →
      nodes_of (update_entry [⟨0, ⟨1, 2, 3⟩, true⟩, ⟨1, ⟨4, 5, 6⟩, false⟩] 1 ⟨7, 8, 9⟩ true) =
        nodes_of [⟨0, ⟨1, 2, 3⟩, true⟩, ⟨1, ⟨4, 5, 6⟩, false⟩]) :=
  update_entry_no_duplicates _ 1 ⟨7, 8, 9⟩ true (by decide)

/-- A bucket identifier: a used-bits count combined with a numeric value. -/
structure BucketId where
  usedBits : Nat
  value : Nat
deriving DecidableEq, Repr

/-- A named partition of the bucket-id namespace. -/
abbrev BucketSpace := Nat

/-- The default bucket space used by the BucketId-only interface overloads. -/
def default_space : BucketSpace := 1

/-- The addressable unit of replication: a bucket space paired with a
bucket id. -/
structure Bucket where
  space : BucketSpace
  id : BucketId
deriving DecidableEq, Repr

/-- A per-stripe bucket database: an association list from bucket to entry. -/
abbrev BucketDatabase := List (Bucket × Entry)

/-- Lookup of a bucket's entry in a database. -/
def db_get (db : BucketDatabase) (b : Bucket) : Option Entry :=
  match db with
  | [] => none
  | (b', e) :: rest => if b' = b then some e else db_get rest b

/-- Insert-or-replace a bucket's entry in a database. -/
def db_put (db : BucketDatabase) (b : Bucket) (e : Entry) : BucketDatabase :=
  match db with
  | [] => [(b, e)]
  | (b', e') :: rest => if b' = b then (b, e) :: rest else (b', e') :: db_put rest b e

/-- Kinds of maintenance operations a stripe can schedule. -/
inductive OpKind where
  | readBucketInfo
  | copyReplica
  | removeReplica
  | mergeReplicas
deriving DecidableEq, Repr

/-- Destructive operations: replica removal and merge. -/
def is_destructive : OpKind → Bool
  | .removeReplica => true
  | .mergeReplicas => true
  | _ => false

/-- Operations that can only add information: reading bucket info from
nodes. -/
def adds_info_only : OpKind → Bool
  | .readBucketInfo => true
  | _ => false

/-- A distributor stripe: its shard's bucket database, its recovery-mode
flag, and the maintenance operations pending for the shard. -/
structure DistributorStripe where
  db : BucketDatabase
  in_recovery : Bool
  pending : List OpKind
deriving DecidableEq, Repr

/-- Whether the stripe is currently in recovery mode. -/
def DistributorStripe.is_in_recovery_mode (s : DistributorStripe) : Bool :=
  s.in_recovery

/-- Modelled from the spec: `DistributorStripe::tick` (implementation not
under src/).  One scheduling quantum: returns the operations executed this
tick together with the stripe afterwards.  While the stripe is in recovery
mode only information-adding operations are allowed to run; all other
pending operations are deferred and stay pending. -/
def DistributorStripe.tick (s : DistributorStripe) :
    List OpKind × DistributorStripe :=
  if s.is_in_recovery_mode then
    (s.pending.filter adds_info_only,
     { s with pending := s.pending.filter fun o => ! adds_info_only o })
  else
    (s.pending, { s with pending := [] })

/-- Status of a storage node in a cluster state. -/
inductive NodeState where
  | up
  | down
  | retired
  | maintenance
deriving DecidableEq, Repr

/-- An immutable cluster state snapshot: a version number and the per-node
status vector. -/
structure ClusterState where
  version : Nat
  nodes : List NodeState
deriving DecidableEq, Repr

/-- A cluster state plus space-specific overrides, distributed atomically;
the model keeps the baseline state, whose version orders bundles. -/
structure ClusterStateBundle where
  baseline : ClusterState
deriving DecidableEq, Repr

/-- The version of a cluster state bundle. -/
def ClusterStateBundle.version (b : ClusterStateBundle) : Nat :=
  b.baseline.version

/-- The top-level distributor: the currently active cluster-state version
and the stripes it owns. -/
structure TopLevelDistributor where
  active_version : Nat
  stripes : List DistributorStripe
deriving DecidableEq, Repr

/-- Modelled from the spec: `receive_set_system_state` of the transition
pipeline (implementation not under src/).  Only if the incoming bundle's
version is strictly newer than the currently active one does a transition
begin: the bundle is broadcast and every stripe enters recovery mode.  A
stale or redelivered version is rejected with no state change. -/
def receive_set_system_state_command (d : TopLevelDistributor)
    (b : ClusterStateBundle) : TopLevelDistributor :=
  if d.active_version < b.version then
    { active_version := b.version,
      stripes := d.stripes.map fun s => { s with in_recovery := true } }
  else d

theorem version_le_after_receive (d : TopLevelDistributor) (b : ClusterStateBundle) :
    b.version ≤ (receive_set_system_state_command d b).active_version := by
  unfold receive_set_system_state_command
  split
  · simp
  · next h => omega

theorem receive_stale_no_op (d : TopLevelDistributor) (b : ClusterStateBundle)
    (h : ¬ d.active_version < b.version) :
    receive_set_system_state_command d b = d := by
  unfold receive_set_system_state_command
  rw [if_neg h]

/-- C1 — applying a bundle of version V twice equals applying it once;
after applying V, any strictly older bundle V' is rejected with no change to
the distributor (in particular to any BucketDatabase entry); and a
transition begins only when the incoming version is strictly newer than the
active one. -/
theorem receive_set_system_state_idempotent_ordered
    (d : TopLevelDistributor) (v v' : ClusterStateBundle)
    (hlt : v'.version < v.version) :
    receive_set_system_state_command (receive_set_system_state_command d v) v =
      receive_set_system_state_command d v ∧
    receive_set_system_state_command (receive_set_system_state_command d v) v' =
      receive_set_system_state_command d v ∧
    (¬ d.active_version < v.version → receive_set_system_state_command d v = d) := by
  have hver := version_le_after_receive d v
  exact ⟨receive_stale_no_op _ v (by omega),
    receive_stale_no_op _ v' (by omega),
    fun h => receive_stale_no_op d v h⟩

/-- Witness for C1: a distributor at version 5 receiving version 7 twice,
then the stale version 6. -/
theorem receive_set_system_state_idempotent_ordered_witness :
    receive_set_system_state_command
        (receive_set_system_state_command
          ⟨5, [⟨[], false, []⟩]⟩ ⟨⟨7, [.up, .up]⟩⟩) ⟨⟨6, [.up, .down]⟩⟩ =
      receive_set_system_state_command ⟨5, [⟨[], false, []⟩]⟩ ⟨⟨7, [.up, .up]⟩⟩ :=
  (receive_set_system_state_idempotent_ordered
    ⟨5, [⟨[], false, []⟩]⟩ ⟨⟨7, [.up, .up]⟩⟩ ⟨⟨6, [.up, .down]⟩⟩ (by decide)).2.1

/-- C2 — while a stripe is in recovery mode, a tick executes no destructive
operation: everything it runs is information-adding (and in particular not a
replica removal or merge), and every destructive pending operation is
deferred, remaining pending after the tick. -/
theorem recovery_mode_defers_destructive (s : DistributorStripe)
    (h : s.is_in_recovery_mode = true) :
    ((s.tick.1.all fun o => (! is_destructive o) && adds_info_only o) = true) ∧
    (∀ o ∈ s.pending, is_destructive o = true → o ∈ s.tick.2.pending) := by
  constructor
  · simp only [DistributorStripe.tick, h, if_true, List.all_eq_true]
    intro o ho
    have := List.of_mem_filter ho
    cases o <;> simp_all [adds_info_only, is_destructive]
  · intro o ho hdes
    simp only [DistributorStripe.tick, h, if_true]
    refine List.mem_filter.mpr ⟨ho, ?_⟩
    cases o <;> simp_all [adds_info_only, is_destructive]

/-- Witness for C2 at a stripe in recovery mode holding a read, a removal
and a merge. -/
theorem recovery_mode_defers_destructive_witness :
    ((DistributorStripe.tick
        ⟨[], true, [.removeReplica, .readBucketInfo, .mergeReplicas]⟩).1.all
      fun o => (! is_destructive o) && adds_info_only o) = true :=
  (recovery_mode_defers_destructive
    ⟨[], true, [.removeReplica, .readBucketInfo, .mergeReplicas]⟩ (by decide)).1

/-- True iff every stripe of the distributor is in recovery mode. -/
def all_distributor_stripes_are_in_recovery_mode (d : TopLevelDistributor) : Bool :=
  d.stripes.all fun s => s.is_in_recovery_mode

/-- True iff no stripe of the distributor is in recovery mode. -/
def no_stripe_in_recovery_mode (d : TopLevelDistributor) : Bool :=
  d.stripes.all fun s => ! s.is_in_recovery_mode

/-- Modelled from the spec: step 4 of the cluster-state transition pipeline
(implementation not under src/).  The completion check: the transition
completes when every stripe has exited recovery mode, or when the bounded
grace period has elapsed, in which case the stripes still in recovery are
forced into a conservative exit.  Returns the distributor after completion,
or `none` when the transition is still in progress. -/
def finish_transition_check (d : TopLevelDistributor) (grace_elapsed : Bool) :
    Option TopLevelDistributor :=
  if no_stripe_in_recovery_mode d then some d
  else if grace_elapsed then
    some { d with stripes := d.stripes.map fun s => { s with in_recovery := false } }
  else none

/-- C7 — when the transition-completion check fires (all stripes have
re-verified their view, or the bounded grace period elapsed), every stripe
of the resulting distributor reports `is_in_recovery_mode() == false`. -/
theorem transition_complete_no_recovery_mode (d d' : TopLevelDistributor)
    (g : Bool) (h : finish_transition_check d g = some d') :
    no_stripe_in_recovery_mode d' = true ∧
    ∀ s ∈ d'.stripes, s.is_in_recovery_mode = false := by
  unfold finish_transition_check at h
  split at h
  · next hall =>
    obtain rfl : d = d' := by injection h
    refine ⟨hall, ?_⟩
    intro s hs
    have := List.all_eq_true.mp hall s hs
    simpa using this
  · split at h
    · obtain rfl : _ = d' := by injection h
      constructor
      · simp [no_stripe_in_recovery_mode, DistributorStripe.is_in_recovery_mode]
      · intro s hs
        simp only [List.mem_map] at hs
        obtain ⟨t, _, rfl⟩ := hs
        rfl
    · exact absurd h (by simp)

/-- Witness for C7: a two-stripe distributor with one stripe still in
recovery completes via the elapsed grace period. -/
theorem transition_complete_no_recovery_mode_witness :
    no_stripe_in_recovery_mode
        ⟨7, [⟨[], false, []⟩, ⟨[], false, [.mergeReplicas]⟩]⟩ = true :=
  (transition_complete_no_recovery_mode
    ⟨7, [⟨[], false, []⟩, ⟨[], true, [.mergeReplicas]⟩]⟩
    ⟨7, [⟨[], false, []⟩, ⟨[], false, [.mergeReplicas]⟩]⟩
    true (by decide)).1

/-- Modelled from the spec: the pure stripe-assignment function
`stripe_index(BucketId) -> [0, stripe_count)`, a deterministic hash rule on
the bucket id (implementation not under src/). -/
def stripe_index (id : BucketId) (stripe_count : Nat) : Nat :=
  id.value % stripe_count

/-- Stripe of a bucket: the stripe index of its bucket id. -/
def stripe_of_bucket (b : Bucket) (stripe_count : Nat) : Nat :=
  stripe_index b.id stripe_count

/-- C5 — `stripe_index` is a pure function: repeated calls with the same
bucket id and stripe count agree, the result lies in `[0, stripe_count)`,
and every stripe index below the stripe count is hit by some bucket id, so
no stripe is starved. -/
theorem stripe_index_stable_in_range_covers (id : BucketId) (s : Nat)
    (h : 0 < s) :
    stripe_index id s = stripe_index id s ∧
    stripe_index id s < s ∧
    ∀ i < s, ∃ id', stripe_index id' s = i := by
  refine ⟨rfl, Nat.mod_lt _ h, ?_⟩
  intro i hi
  exact ⟨⟨0, i⟩, Nat.mod_eq_of_lt hi⟩

/-- Witness for C5: bucket id value 123 over 4 stripes lands in `[0, 4)`. -/
theorem stripe_index_stable_in_range_covers_witness :
    stripe_index ⟨16, 123⟩ 4 < 4 :=
  (stripe_index_stable_in_range_covers ⟨16, 123⟩ 4 (by decide)).2.1

/-- Modelled from the spec: removal-target selection of the ideal-state
convergence algorithm for an over-replicated bucket (implementation not
under src/): when the entry holds more replicas than the redundancy target,
schedule removal of a non-trusted, redundant replica — never a trusted
copy. Returns the node whose replica is to be removed, `none` when the
bucket is not over-replicated or only trusted replicas exist. -/
def removal_target (e : Entry) (redundancy : Nat) : Option Nat :=
  if redundancy < e.length then
    ((e.filter fun r => ! r.trusted).head?).map Replica.node
  else none

/-- Remove node `n`'s replica record from an entry. -/
def remove_replica (e : Entry) (n : Nat) : Entry :=
  e.filter fun r => r.node != n

/-- C3 — a removal scheduled for an over-replicated bucket targets a
non-trusted, redundant replica and never removes the last trusted copy: the
bucket is over-replicated, the targeted node holds a non-trusted replica,
and if the entry held a trusted replica before the removal it still holds
one afterwards. -/
theorem removal_target_keeps_trusted (e : Entry) (redundancy n : Nat)
    (hdup : (nodes_of e).Nodup)
    (h : removal_target e redundancy = some n) :
    redundancy < e.length ∧
    (e.any fun r => r.node == n && ! r.trusted) = true ∧
    ((e.any fun r => r.trusted) = true →
      ((remove_replica e n).any fun r => r.trusted) = true) := by
  unfold removal_target at h
  split at h
  · next hlen =>
    obtain ⟨rt, hrt, rfl⟩ := Option.map_eq_some'.mp h
    have hmem : rt ∈ e.filter fun r => ! r.trusted := List.mem_of_mem_head? hrt
    have hrt_e : rt ∈ e := List.mem_of_mem_filter hmem
    have hrt_nt : rt.trusted = false := by
      have := List.of_mem_filter hmem
      simpa using this
    refine ⟨hlen, ?_, ?_⟩
    · exact List.any_eq_true.mpr ⟨rt, hrt_e, by simp [hrt_nt]⟩
    · intro htr
      obtain ⟨r, hr_e, hr_t⟩ := List.any_eq_true.mp htr
      refine List.any_eq_true.mpr ⟨r, ?_, hr_t⟩
      refine List.mem_filter.mpr ⟨hr_e, ?_⟩
      have hne : r ≠ rt := by
        intro hc
        rw [hc, hrt_nt] at hr_t
        exact Bool.false_ne_true hr_t
      have hnode : r.node ≠ rt.node := by
        intro hc
        exact hne (List.inj_on_of_nodup_map hdup hr_e hrt_e hc)
      simpa using hnode
  · exact absurd h (by simp)

/-- Witness for C3 at a three-replica entry with one trusted copy and
redundancy two: the targeted node is non-trusted and a trusted replica
survives the removal. -/
theorem removal_target_keeps_trusted_witness :
    (([⟨0, ⟨10, 5, 50⟩, true⟩, ⟨1, ⟨11, 5, 50⟩, false⟩, ⟨2, ⟨12, 5, 50⟩, false⟩] : Entry).any
        fun r => r.node == 1 && ! r.trusted) = true ∧
    ((remove_replica
        [⟨0, ⟨10, 5, 50⟩, true⟩, ⟨1, ⟨11, 5, 50⟩, false⟩, ⟨2, ⟨12, 5, 50⟩, false⟩] 1).any
        fun r => r.trusted) = true :=
  ⟨(removal_target_keeps_trusted
      [⟨0, ⟨10, 5, 50⟩, true⟩, ⟨1, ⟨11, 5, 50⟩, false⟩, ⟨2, ⟨12, 5, 50⟩, false⟩]
      2 1 (by decide) (by decide)).2.1,
   (removal_target_keeps_trusted
      [⟨0, ⟨10, 5, 50⟩, true⟩, ⟨1, ⟨11, 5, 50⟩, false⟩, ⟨2, ⟨12, 5, 50⟩, false⟩]
      2 1 (by decide) (by decide)).2.2 (by decide)⟩

/-- Whether a node with the given status still serves traffic: up, or
retired but still serving. -/
def serving : NodeState → Bool
  | .up => true
  | .retired => true
  | _ => false

/-- Status of node `i` in a cluster state (down when out of range). -/
def ClusterState.status (cs : ClusterState) (i : Nat) : NodeState :=
  cs.nodes.getD i .down

/-- The node indices eligible to hold replicas under a cluster state. -/
def eligible_nodes (cs : ClusterState) : List Nat :=
  (List.range cs.nodes.length).filter fun i => serving (cs.status i)

/-- Modelled from the spec: the ideal-state computation (implementation not
under src/): deterministically select the replica nodes for a bucket via a
consistent-hashing-like assignment seeded by the bucket id and the state
version — the eligible node list is rotated by the seed and the first
`redundancy` nodes are taken. -/
def ideal_state (cs : ClusterState) (b : Bucket) (redundancy : Nat) : List Nat :=
  ((eligible_nodes cs).rotate (b.id.value + cs.version)).take redundancy

/-- C6 — the ideal-state function is deterministic: two calls on identical
(ClusterState, Bucket, redundancy) inputs agree, and when at least
`redundancy` nodes are eligible the result is a list of `redundancy`
distinct node indices, each of which is up or retired-but-still-serving in
that cluster state. -/
theorem ideal_state_deterministic (cs : ClusterState) (b : Bucket)
    (redundancy : Nat) (h : redundancy ≤ (eligible_nodes cs).length) :
    ideal_state cs b redundancy = ideal_state cs b redundancy ∧
    (ideal_state cs b redundancy).length = redundancy ∧
    (ideal_state cs b redundancy).Nodup ∧
    ∀ i ∈ ideal_state cs b redundancy, serving (cs.status i) = true := by
  refine ⟨rfl, ?_, ?_, ?_⟩
  · rw [ideal_state, List.length_take, List.length_rotate]
    omega
  · have hnodup : (eligible_nodes cs).Nodup := (List.nodup_range _).filter _
    have hrot : ((eligible_nodes cs).rotate (b.id.value + cs.version)).Nodup :=
      ((List.rotate_perm _ _).nodup_iff).mpr hnodup
    exact List.Nodup.sublist (List.take_sublist _ _) hrot
  · intro i hi
    have h1 : i ∈ (eligible_nodes cs).rotate (b.id.value + cs.version) :=
      List.mem_of_mem_take hi
    have h2 : i ∈ (List.range cs.nodes.length).filter fun j => serving (cs.status j) :=
      List.mem_rotate.mp h1
    exact (List.mem_filter.mp h2).2

/-- Witness for C6: four nodes of which three serve, redundancy two. -/
theorem ideal_state_deterministic_witness :
    (ideal_state ⟨3, [.up, .down, .retired, .up]⟩ ⟨1, ⟨16, 5⟩⟩ 2).length = 2 :=
  (ideal_state_deterministic ⟨3, [.up, .down, .retired, .up]⟩ ⟨1, ⟨16, 5⟩⟩ 2
    (by decide)).2.1

/-- Number of replicas in an entry holding checksum `c`. -/
def checksum_count (e : Entry) (c : Nat) : Nat :=
  (e.filter fun r => r.info.checksum == c).length

/-- Whether checksum `c` is held by a strict majority of the replicas. -/
def has_majority (e : Entry) (c : Nat) : Bool :=
  decide (e.length < 2 * checksum_count e c)

/-- The candidate merge sources: the replicas whose checksum matches the
majority checksum when a strict majority exists, all replicas otherwise. -/
def merge_candidates (e : Entry) : Entry :=
  match e.filter fun r => has_majority e r.info.checksum with
  | [] => e
  | m => m

/-- `a` is a strictly better merge source than `b`: more documents, or
equally many documents with a lower node index. -/
def better_source (a b : Replica) : Bool :=
  decide (b.info.docCount < a.info.docCount) ||
    (a.info.docCount == b.info.docCount && decide (a.node < b.node))

/-- The best merge source among a list of candidates. -/
def pick_best : Entry → Option Replica
  | [] => none
  | r :: rs =>
    match pick_best rs with
    | none => some r
    | some r' => if better_source r' r then some r' else some r

/-- Modelled from the spec: merge-source selection of the ideal-state
convergence algorithm (implementation not under src/): a single trusted
replica is authoritative and becomes the source; otherwise the source is
the replica with the highest document count (lowest node index as the
tie-break) among the replicas matching the majority checksum. -/
def merge_source (e : Entry) : Option Replica :=
  if (e.filter fun r => r.trusted).length = 1 then
    (e.filter fun r => r.trusted).head?
  else
    pick_best (merge_candidates e)

/-- Modelled from the spec: completion of a scheduled merge (implementation
not under src/): every replica of the entry takes on the source's bucket
info. -/
def apply_merge (e : Entry) : Entry :=
  match merge_source e with
  | none => e
  | some src => e.map fun r => { r with info := src.info }

theorem pick_best_eq_none (l : Entry) : pick_best l = none ↔ l = [] := by
  constructor
  · intro h
    cases l with
    | nil => rfl
    | cons a rs =>
      simp only [pick_best] at h
      cases hrs : pick_best rs <;> simp [hrs] at h
      split at h <;> simp at h
  · intro h
    subst h
    rfl

theorem pick_best_mem_max (l : Entry) (r : Replica) (h : pick_best l = some r) :
    r ∈ l ∧ ∀ a ∈ l, a.info.docCount ≤ r.info.docCount := by
  induction l generalizing r with
  | nil => simp [pick_best] at h
  | cons a rs ih =>
    simp only [pick_best] at h
    cases hrs : pick_best rs with
    | none =>
      have har : a = r := by
        rw [hrs] at h
        injection h
      have hrs_nil : rs = [] := (pick_best_eq_none rs).mp hrs
      subst har
      subst hrs_nil
      exact ⟨List.mem_cons_self a [], by simp⟩
    | some b =>
      rw [hrs] at h
      change (if better_source b a = true then some b else some a) = some r at h
      obtain ⟨hb_mem, hb_max⟩ := ih b hrs
      by_cases hbet : better_source b a = true
      · rw [if_pos hbet] at h
        have hbr : b = r := by injection h
        subst hbr
        have hab : a.info.docCount ≤ b.info.docCount := by
          simp only [better_source, Bool.or_eq_true, Bool.and_eq_true,
            decide_eq_true_eq, beq_iff_eq] at hbet
          omega
        refine ⟨List.mem_cons_of_mem a hb_mem, ?_⟩
        intro x hx
        rcases List.mem_cons.mp hx with hxa | hxs
        · subst hxa; exact hab
        · exact hb_max x hxs
      · rw [if_neg hbet] at h
        have har : a = r := by injection h
        subst har
        have hba : b.info.docCount ≤ a.info.docCount := by
          simp only [better_source, Bool.or_eq_true, Bool.and_eq_true,
            decide_eq_true_eq, beq_iff_eq] at hbet
          push_neg at hbet
          omega
        refine ⟨List.mem_cons_self a rs, ?_⟩
        intro x hx
        rcases List.mem_cons.mp hx with hxa | hxs
        · subst hxa; exact le_refl _
        · exact le_trans (hb_max x hxs) hba

theorem merge_candidates_ne_nil (e : Entry) (h : e ≠ []) :
    merge_candidates e ≠ [] := by
  unfold merge_candidates
  split
  · exact h
  · next m hm => simp_all

/-- C8 — when no single replica is authoritative, the merge source is a
candidate (a replica matching the majority checksum, or any replica when no
strict majority exists) with the highest document count; and in the
concrete scenario of two replicas with differing checksums — one trusted
with 100 documents, the other with 97 — the 100-document replica is
selected as the source and after completion both entries report its
checksum. -/
theorem merge_source_highest_doc_count (e : Entry)
    (h1 : (e.filter fun r => r.trusted).length ≠ 1) (h2 : e ≠ []) :
    (∃ src, merge_source e = some src ∧ src ∈ merge_candidates e ∧
      ∀ a ∈ merge_candidates e, a.info.docCount ≤ src.info.docCount) ∧
    merge_source [⟨0, ⟨0xAA, 100, 1000⟩, true⟩, ⟨1, ⟨0xBB, 97, 970⟩, false⟩] =
      some ⟨0, ⟨0xAA, 100, 1000⟩, true⟩ ∧
    ((apply_merge [⟨0, ⟨0xAA, 100, 1000⟩, true⟩, ⟨1, ⟨0xBB, 97, 970⟩, false⟩]).all
      fun r => r.info.checksum == 0xAA) = true := by
  refine ⟨?_, by decide, by decide⟩
  have hc := merge_candidates_ne_nil e h2
  cases hp : pick_best (merge_candidates e) with
  | none => exact absurd ((pick_best_eq_none _).mp hp) hc
  | some src =>
    obtain ⟨hmem, hmax⟩ := pick_best_mem_max _ _ hp
    refine ⟨src, ?_, hmem, hmax⟩
    rw [merge_source, if_neg h1]
    exact hp

/-- Witness for C8 at an entry with two non-trusted divergent replicas: the
scenario conjunct obtained through the theorem. -/
theorem merge_source_highest_doc_count_witness :
    merge_source [⟨0, ⟨0xAA, 100, 1000⟩, true⟩, ⟨1, ⟨0xBB, 97, 970⟩, false⟩] =
      some ⟨0, ⟨0xAA, 100, 1000⟩, true⟩ :=
  (merge_source_highest_doc_count
    [⟨0, ⟨5, 10, 100⟩, false⟩, ⟨1, ⟨6, 12, 120⟩, false⟩]
    (by decide) (by decide)).2.1

/-- The character for a decimal digit. -/
def digit_char (d : Nat) : Char := Char.ofNat (48 + d)

/-- The decimal digit denoted by a character. -/
def char_digit (c : Char) : Nat := c.toNat - 48

/-- Whether a character is a decimal digit. -/
def is_digit_char (c : Char) : Bool :=
  decide (48 ≤ c.toNat) && decide (c.toNat ≤ 57)

/-- The decimal text encoding of a natural number. -/
def enc_nat (n : Nat) : List Char :=
  if n = 0 then [digit_char 0] else ((Nat.digits 10 n).reverse).map digit_char

/-- Parse a nonempty all-digit character list as a decimal number. -/
def parse_nat (cs : List Char) : Option Nat :=
  if !cs.isEmpty && cs.all is_digit_char then
    some (Nat.ofDigits 10 ((cs.map char_digit).reverse))
  else none

theorem digit_char_props : ∀ d : Fin 10,
    is_digit_char (digit_char d.val) = true ∧
      char_digit (digit_char d.val) = d.val := by decide

theorem mem_enc_nat_digit (n : Nat) (c : Char) (hc : c ∈ enc_nat n) :
    is_digit_char c = true := by
  unfold enc_nat at hc
  split at hc
  · rw [List.mem_singleton.mp hc]
    exact (digit_char_props 0).1
  · obtain ⟨d, hd, rfl⟩ := List.mem_map.mp hc
    have hd10 : d < 10 :=
      Nat.digits_lt_base (by norm_num) (List.mem_reverse.mp hd)
    exact (digit_char_props ⟨d, hd10⟩).1

theorem enc_nat_ne_nil (n : Nat) : enc_nat n ≠ [] := by
  unfold enc_nat
  split
  · simp
  · next h =>
    simpa using Nat.digits_ne_nil_iff_ne_zero.mpr h

theorem not_mem_enc_nat (sep : Char) (hsep : is_digit_char sep = false) (n : Nat) :
    sep ∉ enc_nat n := by
  intro hc
  rw [mem_enc_nat_digit n sep hc] at hsep
  exact Bool.noConfusion hsep

theorem parse_enc_nat (n : Nat) : parse_nat (enc_nat n) = some n := by
  have hall : (enc_nat n).all is_digit_char = true :=
    List.all_eq_true.mpr fun c hc => mem_enc_nat_digit n c hc
  have hne : (enc_nat n).isEmpty = false :=
    List.isEmpty_eq_false.mpr (enc_nat_ne_nil n)
  unfold parse_nat
  rw [hall, hne]
  simp only [Bool.not_false, Bool.and_self, if_true]
  congr 1
  unfold enc_nat
  split
  · next h =>
    subst h
    simp [char_digit, digit_char, Nat.ofDigits]
  · rw [List.map_map, List.map_reverse, List.reverse_reverse]
    have hmap : (Nat.digits 10 n).map (char_digit ∘ digit_char) = Nat.digits 10 n := by
      rw [List.map_congr_left fun d hd =>
        (digit_char_props ⟨d, Nat.digits_lt_base (by norm_num) hd⟩).2]
      exact List.map_id _
    rw [hmap, Nat.ofDigits_digits]

/-- Split a character list on a separator character. -/
def split_sep (sep : Char) : List Char → List (List Char)
  | [] => [[]]
  | c :: cs =>
    if c = sep then [] :: split_sep sep cs
    else
      match split_sep sep cs with
      | [] => [[c]]
      | t :: ts => (c :: t) :: ts

/-- Join character lists with a separator character. -/
def join_sep (sep : Char) : List (List Char) → List Char
  | [] => []
  | [x] => x
  | x :: y :: xs => x ++ sep :: join_sep sep (y :: xs)

theorem split_sep_ne_nil (sep : Char) (cs : List Char) : split_sep sep cs ≠ [] := by
  induction cs with
  | nil => simp [split_sep]
  | cons c cs ih =>
    unfold split_sep
    split
    · simp
    · split
      · simp
      · simp

theorem split_sep_no_sep (sep : Char) (xs : List Char) (h : sep ∉ xs) :
    split_sep sep xs = [xs] := by
  induction xs with
  | nil => rfl
  | cons c cs ih =>
    have hc : ¬ c = sep := fun hc => h (by simp [hc])
    have hcs : sep ∉ cs := fun hm => h (by simp [hm])
    unfold split_sep
    rw [if_neg hc, ih hcs]

theorem split_sep_cons_ne (sep c : Char) (cs : List Char) (h : ¬ c = sep) :
    split_sep sep (c :: cs) =
      match split_sep sep cs with
      | [] => [[c]]
      | t :: ts => (c :: t) :: ts := by
  rw [split_sep]
  rw [if_neg h]

theorem split_sep_append (sep : Char) (xs ys : List Char) (h : sep ∉ xs) :
    split_sep sep (xs ++ sep :: ys) = xs :: split_sep sep ys := by
  induction xs with
  | nil => simp [split_sep]
  | cons c cs ih =>
    have hc : ¬ c = sep := fun hc => h (by simp [hc])
    have hcs : sep ∉ cs := fun hm => h (by simp [hm])
    have ihcs := ih hcs
    simp only [List.cons_append]
    rw [split_sep_cons_ne sep c _ hc, ihcs]

/-- One node specification of the bulk-seeding text format: node index,
checksum, document count and size. -/
structure NodeSpec where
  node : Nat
  checksum : Nat
  docs : Nat
  size : Nat
deriving DecidableEq, Repr

/-- The text encoding "node=checksum/docs/size" of one node spec. -/
def enc_node_spec (ns : NodeSpec) : List Char :=
  enc_nat ns.node ++
    '=' :: (enc_nat ns.checksum ++ '/' :: (enc_nat ns.docs ++ '/' :: enc_nat ns.size))

/-- Parse one "node=checksum/docs/size" item. -/
def parse_node_spec (cs : List Char) : Option NodeSpec :=
  match split_sep '=' cs with
  | [nodePart, rest] =>
    match split_sep '/' rest with
    | [c, d, s] =>
      match parse_nat nodePart, parse_nat c, parse_nat d, parse_nat s with
      | some nv, some cv, some dv, some sv => some ⟨nv, cv, dv, sv⟩
      | _, _, _, _ => none
    | _ => none
  | _ => none

/-- Parse a list of comma-separated items. -/
def parse_items : List (List Char) → Option (List NodeSpec)
  | [] => some []
  | p :: ps =>
    match parse_node_spec p, parse_items ps with
    | some n, some ns => some (n :: ns)
    | _, _ => none

/-- Parse the full "n1=c1/d1/s1,n2=c2/d2/s2" encoding. -/
def parse_node_list (cs : List Char) : Option (List NodeSpec) :=
  if cs.isEmpty then some [] else parse_items (split_sep ',' cs)

/-- The comma-separated encoding of a list of node specs. -/
def enc_node_list (l : List NodeSpec) : List Char :=
  join_sep ',' (l.map enc_node_spec)

theorem mem_enc_node_spec (ns : NodeSpec) (c : Char) (hc : c ∈ enc_node_spec ns) :
    is_digit_char c = true ∨ c = '=' ∨ c = '/' := by
  unfold enc_node_spec at hc
  simp only [List.mem_append, List.mem_cons] at hc
  rcases hc with h | h | h | h | h | h | h
  · exact Or.inl (mem_enc_nat_digit _ _ h)
  · exact Or.inr (Or.inl h)
  · exact Or.inl (mem_enc_nat_digit _ _ h)
  · exact Or.inr (Or.inr h)
  · exact Or.inl (mem_enc_nat_digit _ _ h)
  · exact Or.inr (Or.inr h)
  · exact Or.inl (mem_enc_nat_digit _ _ h)

theorem comma_not_mem_enc_node_spec (ns : NodeSpec) : ',' ∉ enc_node_spec ns := by
  intro hc
  rcases mem_enc_node_spec ns ',' hc with h | h | h
  · exact absurd h (by decide)
  · exact absurd h (by decide)
  · exact absurd h (by decide)

theorem parse_enc_node_spec (ns : NodeSpec) :
    parse_node_spec (enc_node_spec ns) = some ns := by
  have h1 : split_sep '=' (enc_node_spec ns) =
      [enc_nat ns.node,
        enc_nat ns.checksum ++ '/' :: (enc_nat ns.docs ++ '/' :: enc_nat ns.size)] := by
    unfold enc_node_spec
    rw [split_sep_append _ _ _ (not_mem_enc_nat _ (by decide) _)]
    rw [split_sep_no_sep]
    intro hc
    simp only [List.mem_append, List.mem_cons] at hc
    rcases hc with h | h | h | h | h
    · exact absurd (mem_enc_nat_digit _ _ h) (by decide)
    · exact absurd h (by decide)
    · exact absurd (mem_enc_nat_digit _ _ h) (by decide)
    · exact absurd h (by decide)
    · exact absurd (mem_enc_nat_digit _ _ h) (by decide)
  have h2 : split_sep '/'
      (enc_nat ns.checksum ++ '/' :: (enc_nat ns.docs ++ '/' :: enc_nat ns.size)) =
      [enc_nat ns.checksum, enc_nat ns.docs, enc_nat ns.size] := by
    rw [split_sep_append _ _ _ (not_mem_enc_nat _ (by decide) _)]
    rw [split_sep_append _ _ _ (not_mem_enc_nat _ (by decide) _)]
    rw [split_sep_no_sep _ _ (not_mem_enc_nat _ (by decide) _)]
  unfold parse_node_spec
  rw [h1]
  dsimp only
  rw [h2]
  dsimp only
  rw [parse_enc_nat, parse_enc_nat, parse_enc_nat, parse_enc_nat]

theorem enc_node_spec_ne_nil (ns : NodeSpec) : enc_node_spec ns ≠ [] := by
  unfold enc_node_spec
  simp

theorem enc_node_list_ne_nil (l : List NodeSpec) (h : l ≠ []) :
    enc_node_list l ≠ [] := by
  cases l with
  | nil => exact absurd rfl h
  | cons x xs =>
    cases xs with
    | nil => exact enc_node_spec_ne_nil x
    | cons y ys =>
      rw [show enc_node_list (x :: y :: ys) =
        enc_node_spec x ++ ',' :: enc_node_list (y :: ys) from rfl]
      simp

theorem split_enc_node_list (l : List NodeSpec) (h : l ≠ []) :
    split_sep ',' (enc_node_list l) = l.map enc_node_spec := by
  induction l with
  | nil => exact absurd rfl h
  | cons x xs ih =>
    cases xs with
    | nil =>
      rw [show enc_node_list [x] = enc_node_spec x from rfl]
      rw [split_sep_no_sep _ _ (comma_not_mem_enc_node_spec x)]
      rfl
    | cons y ys =>
      have ih' := ih (by simp)
      rw [show enc_node_list (x :: y :: ys) =
        enc_node_spec x ++ ',' :: enc_node_list (y :: ys) from rfl]
      rw [split_sep_append _ _ _ (comma_not_mem_enc_node_spec x), ih']
      rfl

theorem parse_items_enc (l : List NodeSpec) :
    parse_items (l.map enc_node_spec) = some l := by
  induction l with
  | nil => rfl
  | cons x xs ih =>
    simp only [List.map_cons, parse_items]
    rw [parse_enc_node_spec, ih]

theorem parse_enc_node_list (l : List NodeSpec) :
    parse_node_list (enc_node_list l) = some l := by
  by_cases h : l = []
  · subst h
    rfl
  · have hne : (enc_node_list l).isEmpty = false :=
      List.isEmpty_eq_false.mpr (enc_node_list_ne_nil l h)
    unfold parse_node_list
    rw [hne]
    simp only [Bool.false_eq_true, if_false]
    rw [split_enc_node_list l h, parse_items_enc]

/-- The replica record inserted for a parsed node spec. -/
def replica_of_spec (ns : NodeSpec) : Replica :=
  ⟨ns.node, ⟨ns.checksum, ns.docs, ns.size⟩, true⟩

/-- The (node, checksum, docs, size) tuple of a replica record. -/
def spec_of_replica (r : Replica) : NodeSpec :=
  ⟨r.node, r.info.checksum, r.info.docCount, r.info.totalSize⟩

/-- The bucket entry built by inserting each parsed node spec in turn. -/
def entry_of_specs (l : List NodeSpec) : Entry :=
  l.foldl (fun e ns => update_entry e ns.node ⟨ns.checksum, ns.docs, ns.size⟩ true) []

theorem foldl_update_fresh (l : List NodeSpec) :
    ∀ e : Entry, (∀ ns ∈ l, ns.node ∉ nodes_of e) →
    (l.map NodeSpec.node).Nodup →
    l.foldl (fun e ns => update_entry e ns.node ⟨ns.checksum, ns.docs, ns.size⟩ true) e =
      e ++ l.map replica_of_spec := by
  induction l with
  | nil =>
    intro e _ _
    simp
  | cons x xs ih =>
    intro e hdis hdup
    simp only [List.foldl_cons]
    rw [update_entry_append _ _ _ _ (hdis x (List.mem_cons_self x xs))]
    have hdup_cons : (∀ y ∈ xs, ¬ y.node = x.node) ∧
        (xs.map NodeSpec.node).Nodup := by
      simpa using hdup
    have hd : ∀ ns ∈ xs, ns.node ∉ nodes_of (e ++ [replica_of_spec x]) := by
      intro ns hns
      have h1 : ns.node ∉ nodes_of e := hdis ns (List.mem_cons_of_mem _ hns)
      have h2 : ns.node ≠ x.node := hdup_cons.1 ns hns
      simp only [nodes_of, List.map_append, List.mem_append, List.map_cons,
        List.map_nil, List.mem_singleton]
      rintro (hmem | heq)
      · exact h1 hmem
      · exact h2 heq
    have hrepl : (⟨x.node, ⟨x.checksum, x.docs, x.size⟩, true⟩ : Replica) =
        replica_of_spec x := rfl
    rw [hrepl, ih (e ++ [replica_of_spec x]) hd hdup_cons.2]
    simp [replica_of_spec]

theorem entry_of_specs_eq (l : List NodeSpec) (hdup : (l.map NodeSpec.node).Nodup) :
    entry_of_specs l = l.map replica_of_spec := by
  have := foldl_update_fresh l [] (by simp [nodes_of]) hdup
  simpa [entry_of_specs] using this

theorem db_get_put (db : BucketDatabase) (b : Bucket) (e : Entry) :
    db_get (db_put db b e) b = some e := by
  induction db with
  | nil => simp [db_put, db_get]
  | cons p rest ih =>
    obtain ⟨b', e'⟩ := p
    by_cases hb : b' = b
    · subst hb
      simp [db_put, db_get]
    · simp [db_put, db_get, hb, ih]

/-- Modelled from the spec: `add_nodes_to_stripe_bucket_db` (implementation
not under src/): parses the "node=checksum/docs/size" comma-separated
string and inserts the parsed nodes as the given bucket's replicas in the
stripe's bucket database; an unparsable string leaves the database
unchanged. -/
def add_nodes_to_stripe_bucket_db (db : BucketDatabase) (bucket : Bucket)
    (nodeStr : List Char) : BucketDatabase :=
  match parse_node_list nodeStr with
  | none => db
  | some l => db_put db bucket (entry_of_specs l)

/-- C4 — round trip of the bulk-seeding text format: encoding a list of
(node, checksum, docs, size) tuples with distinct nodes and parsing it back
yields exactly that list; and seeding a bucket database from the encoding
of any reordering of the tuples produces a bucket entry holding exactly
those tuples, independent of the order of the nodes in the string. -/
theorem add_nodes_round_trip (l l' : List NodeSpec) (db : BucketDatabase)
    (bucket : Bucket) (hdup : (l.map NodeSpec.node).Nodup)
    (hperm : l'.Perm l) :
    parse_node_list (enc_node_list l) = some l ∧
    ∃ e, db_get (add_nodes_to_stripe_bucket_db db bucket (enc_node_list l')) bucket =
        some e ∧
      (e.map spec_of_replica).Perm l := by
  refine ⟨parse_enc_node_list l, ?_⟩
  have hdup' : (l'.map NodeSpec.node).Nodup :=
    ((hperm.map NodeSpec.node).nodup_iff).mpr hdup
  refine ⟨entry_of_specs l', ?_, ?_⟩
  · unfold add_nodes_to_stripe_bucket_db
    rw [parse_enc_node_list l']
    exact db_get_put db bucket _
  · rw [entry_of_specs_eq l' hdup', List.map_map]
    have hcomp : spec_of_replica ∘ replica_of_spec = id := rfl
    rw [hcomp, List.map_id]
    exact hperm

/-- Witness for C4: two tuples encoded and parsed back, seeded in reverse
order. -/
theorem add_nodes_round_trip_witness :
    parse_node_list (enc_node_list [⟨1, 2, 3, 4⟩, ⟨5, 6, 7, 8⟩]) =
      some [⟨1, 2, 3, 4⟩, ⟨5, 6, 7, 8⟩] :=
  (add_nodes_round_trip [⟨1, 2, 3, 4⟩, ⟨5, 6, 7, 8⟩] [⟨5, 6, 7, 8⟩, ⟨1, 2, 3, 4⟩]
    [] ⟨1, ⟨16, 1⟩⟩ (by decide) (by decide)).1

/-- Modelled from the header comment: the BucketId-only overload of
`add_nodes_to_stripe_bucket_db`, which "always inserts into default bucket
space" (implementation not under src/). -/
def add_nodes_to_stripe_bucket_db_by_id (db : BucketDatabase) (id : BucketId)
    (nodeStr : List Char) : BucketDatabase :=
  match parse_node_list nodeStr with
  | none => db
  | some l => db_put db ⟨default_space, id⟩ (entry_of_specs l)

/-- Lookup of a bucket's entry, as exposed by `get_bucket`. -/
def get_bucket (db : BucketDatabase) (bucket : Bucket) : Option Entry :=
  db_get db bucket

/-- Modelled from the header comment: the BucketId-only overload of
`get_bucket`, which "gets bucket entry from default space only". -/
def get_bucket_by_id (db : BucketDatabase) (id : BucketId) : Option Entry :=
  db_get db ⟨default_space, id⟩

/-- C10 — the BucketId-only overloads are default-bucket-space
specializations: for every database, bucket id and node string, the
id-overload of `add_nodes_to_stripe_bucket_db` behaves exactly as the
Bucket overload at the default space, and the id-overload of `get_bucket`
returns the same entry as the Bucket overload at the default space. -/
theorem by_id_overloads_use_default_space (db : BucketDatabase) (id : BucketId)
    (nodeStr : List Char) :
    add_nodes_to_stripe_bucket_db_by_id db id nodeStr =
      add_nodes_to_stripe_bucket_db db ⟨default_space, id⟩ nodeStr ∧
    get_bucket_by_id db id = get_bucket db ⟨default_space, id⟩ :=
  ⟨rfl, rfl⟩

end Vespa
